import Mathlib

/-!
Shallow embedding of the `facilitator` repository's Elysia payment
middleware (`src/elysia/middleware.ts`) and exact Starknet client scheme
(`src/starknet/exact/client.ts`), with theorems settling the frozen claims.

Strings are modelled through their character lists (`String.data`), which
matches the JavaScript view of paths and query strings as character
sequences (all inputs of interest are ASCII). External library calls
(`processHTTPRequest`, `processSettlement`, `trackUptoPayment`,
`createPaymentPayload` of the chain library, `validateNetwork`, the Fetch
`Headers.get` and `URL` parsing of the platform) are oracle parameters:
the repository only calls them.
-/

/-- JS `value.startsWith(pre)` on ASCII strings. -/
def jsStartsWith (s pre : String) : Bool :=
  List.isPrefixOf pre.data s.data

/-- JS `value.slice(n)` (drop the first `n` UTF-16 units; ASCII here). -/
def jsDrop (s : String) (n : Nat) : String :=
  String.mk (s.data.drop n)

/-- JS `value.toLowerCase()` on ASCII strings. -/
def jsToLower (s : String) : String :=
  String.mk (s.data.map Char.toLower)

/-- `normalizePathCandidate` (middleware.ts:79-81):
`value.startsWith("/") ? value : "/" + value`. -/
def normalizePathCandidate (value : String) : String :=
  if jsStartsWith value "/" then value else "/" ++ value

/-- JS `value.replace(/\/+$/, "")`: remove every trailing slash. -/
def dropTrailingSlashes (s : String) : String :=
  String.mk ((s.data.reverse.dropWhile (fun c => c = '/')).reverse)

/-- `normalizePrefix` (middleware.ts:83-86). -/
def normalizePrefix (value : String) : String :=
  if value = "/" then "" else dropTrailingSlashes value

/-- Whether a character list starts with `/*` or `/[` (the regex
`/\/(\*|\[)/` of `getStaticPrefix` matches at its head). -/
def isDynamicStart : List Char → Bool
  | '/' :: '*' :: _ => true
  | '/' :: '[' :: _ => true
  | _ => false

/-- JS `routePath.search(/\/(\*|\[)/)`: index of the first match, as an
`Option` (`none` for -1). -/
def findDynamicIdx : List Char → Option Nat
  | [] => none
  | c :: rest =>
    if isDynamicStart (c :: rest) then some 0
    else (findDynamicIdx rest).map (· + 1)

/-- JS `s.lastIndexOf("/")` over a character list, -1 when absent. -/
def lastIndexOfSlash : List Char → Int
  | [] => -1
  | c :: rest =>
    let r := lastIndexOfSlash rest
    if 0 ≤ r then r + 1 else if c = '/' then 0 else -1

/-- `getStaticPrefix` (middleware.ts:88-96). -/
def getStaticPrefix (routePath : String) : String :=
  let staticPath :=
    match findDynamicIdx routePath.data with
    | none => routePath
    | some i => String.mk (routePath.data.take i)
  let normalized := dropTrailingSlashes (normalizePathCandidate staticPath)
  let lastSlash := lastIndexOfSlash normalized.data
  if lastSlash ≤ 0 then ""
  else String.mk (normalized.data.take lastSlash.toNat)

/-- JS `s.split(/\s+/)`: cut at every maximal whitespace run. `cur` is the
current segment (reversed), `inRun` whether the previous character was
whitespace. -/
def splitWsGo : List Char → List Char → Bool → List String
  | [], cur, _ => [String.mk cur.reverse]
  | c :: rest, cur, inRun =>
    if c.isWhitespace then
      if inRun then splitWsGo rest [] true
      else String.mk cur.reverse :: splitWsGo rest [] true
    else splitWsGo rest (c :: cur) false

def splitWsJS (s : String) : List String := splitWsGo s.data [] false

/-- `RoutesConfig` of the core library as the middleware inspects it:
either the single-route `{ accepts: ... }` form or a pattern-keyed map
(patterns listed in object-key insertion order). -/
inductive RoutesConfig where
  | accepts
  | patternMap (patterns : List String)

/-- `getRoutePatternPaths` (middleware.ts:98-111). -/
def getRoutePatternPaths : Option RoutesConfig → List String
  | none => []
  | some .accepts => ["*"]
  | some (.patternMap patterns) =>
    patterns.map (fun pattern =>
      let rawPath :=
        if ' ' ∈ pattern.data then (splitWsJS pattern).getD 1 "" else pattern
      normalizePathCandidate rawPath)

/-- A JS `Set` insertion: keeps insertion order, ignores duplicates. -/
def insertUnique (l : List String) (x : String) : List String :=
  if x ∈ l then l else l ++ [x]

/-- The context fields of an Elysia request the middleware reads for path
resolution: `resolveUrl(ctx.request).pathname`, `ctx.path`, `ctx.route`
(`none` models a non-string field; middleware.ts:72-77 and 160-165). -/
structure BeforeCtx where
  urlPathname : String
  path : Option String
  route : Option String

/-- The adapter's `getPath` (middleware.ts:171-175). -/
def adapterPath (ctx : BeforeCtx) : String :=
  match ctx.path with
  | some p => if 0 < p.length then normalizePathCandidate p else ctx.urlPathname
  | none => ctx.urlPathname

/-- One `if (typeof v === "string" && v.length > 0)
candidates.add(normalizePathCandidate(v))` block of `getPathCandidates`
(middleware.ts:149-155); `none` models a non-string field. -/
def addNonEmptyCandidate (l : List String) (o : Option String) : List String :=
  match o with
  | some s => if 0 < s.length then insertUnique l (normalizePathCandidate s) else l
  | none => l

/-- `getPathCandidates` (middleware.ts:144-158). -/
def getPathCandidates (ctx : BeforeCtx) (fallback : String) : List String :=
  addNonEmptyCandidate
    (addNonEmptyCandidate
      (insertUnique (insertUnique [] (normalizePathCandidate ctx.urlPathname))
        (normalizePathCandidate fallback))
      ctx.path)
    ctx.route

/-- One iteration of the `prefixes`-collecting loop of
`expandPathCandidates` (middleware.ts:120-126). -/
def collectStep (acc : List String) (pattern : String) : List String :=
  if pattern = "*" then acc
  else
    let pre := normalizePrefix (getStaticPrefix pattern)
    if pre = "" then acc else insertUnique acc pre

/-- The `prefixes` set built by `expandPathCandidates`
(middleware.ts:118-126). -/
def collectPrefixes (routePatterns : List String) : List String :=
  routePatterns.foldl collectStep []

/-- One iteration of `expandPathCandidates`' inner loop
(middleware.ts:129-138). -/
def expandInnerStep (pre : String) (acc2 : List String) (c : String) : List String :=
  let acc3 :=
    if jsStartsWith c pre then acc2
    else insertUnique acc2 (normalizePathCandidate (pre ++ c))
  if jsStartsWith c pre then
    insertUnique acc3
      (normalizePathCandidate
        (if jsDrop c pre.length = "" then "/" else jsDrop c pre.length))
  else acc3

/-- The body of `expandPathCandidates`' loop for one prefix
(middleware.ts:128-139). -/
def expandStep (baseCandidates : List String) (acc : List String) (pre : String) :
    List String :=
  baseCandidates.foldl (expandInnerStep pre) acc

/-- `expandPathCandidates` (middleware.ts:113-142). -/
def expandPathCandidates (baseCandidates routePatterns : List String) : List String :=
  (collectPrefixes routePatterns).foldl (expandStep baseCandidates) baseCandidates

/-! ## Middleware lifecycle (`createElysiaPaymentMiddleware`) -/

/-- The error response carried by a `payment-error` result of the core
library. -/
structure ErrorResponse where
  status : Nat
  headers : List (String × String)
  body : String
deriving DecidableEq, Repr

/-- Opaque payment payload of the core library (the middleware never
inspects it). -/
structure PaymentPayload where
  id : Nat
deriving DecidableEq, Repr

/-- The payment requirements of the core library, as far as this
repository reads them: the middleware reads `scheme`, the Starknet client
scheme reads `network`. -/
structure PaymentRequirements where
  scheme : String
  network : String
  id : Nat
deriving DecidableEq, Repr

/-- `HTTPProcessResult` of the core library, per the `type` strings the
middleware distinguishes. -/
inductive HTTPProcessResult where
  | noPaymentRequired
  | paymentError (response : ErrorResponse)
  | paymentVerified (paymentPayload : PaymentPayload)
      (paymentRequirements : PaymentRequirements)
deriving DecidableEq, Repr

/-- The `type` discriminant string of a result. -/
def HTTPProcessResult.rtype : HTTPProcessResult → String
  | .noPaymentRequired => "no-payment-required"
  | .paymentError _ => "payment-error"
  | .paymentVerified _ _ => "payment-verified"

/-- `TrackingResult` of `trackUptoPayment` as the middleware reads it
(`success`, `sessionId`, `error`). -/
inductive TrackingResult where
  | ok (sessionId : String)
  | err (error : String) (sessionId : String)
deriving DecidableEq, Repr

/-- The settlement result of `processSettlement` as the middleware reads
it. -/
structure SettlementResult where
  success : Bool
  headers : List (String × String)
deriving DecidableEq, Repr

/-- `ctx.set` of Elysia as the middleware writes it. Headers are a JS
object: an entry list where a later binding for a key overrides an
earlier one. -/
structure SetState where
  status : Option Nat
  headers : Option (List (String × String))
deriving DecidableEq, Repr

/-- `mergeHeaders` (middleware.ts:65-70): `{...(current ?? {}), ...next}`;
with last-binding-wins lookup, appending `next` is the object spread. -/
def mergeHeaders (current : Option (List (String × String)))
    (next : List (String × String)) : List (String × String) :=
  current.getD [] ++ next

/-- Observable calls the middleware makes, in order, while serving one
request. -/
inductive Event where
  | procCall (path : String)
  | trackCall
  | handlerRun
  | settleCall
deriving DecidableEq, Repr

/-- The body an early (pre-handler) return produces: the payment error's
body (middleware.ts:325) or the upto tracking error object
(middleware.ts:347-351). -/
inductive EarlyResponse where
  | paymentErrorBody (body : String)
  | trackingErrorBody (error : String) (message : String) (sessionId : String)
deriving DecidableEq, Repr

/-- The middleware's environment: the external library calls it delegates
to, and its resolved configuration (middleware.ts:252-277). -/
structure Env where
  proc : String → HTTPProcessResult
  settle : PaymentPayload → PaymentRequirements → SettlementResult
  track : PaymentPayload → PaymentRequirements → TrackingResult
  trackErrorStatus : String → Nat
  trackErrorMessage : String → String
  hasUpto : Bool
  autoTrack : Bool
  autoSettle : Bool
  routePatterns : List String

/-- The candidate path list the `onBeforeHandle` hook builds
(middleware.ts:285-288). -/
def candidatePaths (env : Env) (ctx : BeforeCtx) : List String :=
  expandPathCandidates (getPathCandidates ctx (adapterPath ctx)) env.routePatterns

/-- The `for (const candidate of pathCandidates)` loop
(middleware.ts:300-317): paths passed to `processHTTPRequest` in order,
and the final `result`. -/
def runCandidates (proc : String → HTTPProcessResult) :
    List String → HTTPProcessResult → List String × HTTPProcessResult
  | [], result => ([], result)
  | c :: rest, _ =>
    let attempt := proc c
    if attempt.rtype = "no-payment-required" then
      let r := runCandidates proc rest attempt
      (c :: r.1, r.2)
    else ([c], attempt)

/-- What the `onBeforeHandle` hook leaves behind. -/
structure BeforeOutcome where
  events : List Event
  x402Result : HTTPProcessResult
  x402Tracking : Option TrackingResult
  set : SetState
  early : Option EarlyResponse
deriving Repr

/-- The `onBeforeHandle` hook (middleware.ts:279-358). -/
def onBeforeHandle (env : Env) (ctx : BeforeCtx) (set0 : SetState) : BeforeOutcome :=
  let run := runCandidates env.proc (candidatePaths env ctx) .noPaymentRequired
  let events := run.1.map Event.procCall
  match run.2 with
  | .paymentError resp =>
      { events := events, x402Result := .paymentError resp, x402Tracking := none,
        set := { status := some resp.status,
                 headers := some (mergeHeaders set0.headers resp.headers) },
        early := some (.paymentErrorBody resp.body) }
  | .paymentVerified payload reqs =>
      if reqs.scheme = "upto" ∧ env.hasUpto = true ∧ env.autoTrack = true then
        match env.track payload reqs with
        | .err e sid =>
            { events := events ++ [.trackCall],
              x402Result := .paymentVerified payload reqs,
              x402Tracking := some (.err e sid),
              set := { status := some (env.trackErrorStatus e),
                       headers := some (mergeHeaders set0.headers
                         [("content-type", "application/json")]) },
              early := some (.trackingErrorBody e (env.trackErrorMessage e) sid) }
        | .ok sid =>
            { events := events ++ [.trackCall],
              x402Result := .paymentVerified payload reqs,
              x402Tracking := some (.ok sid),
              set := { status := set0.status,
                       headers := some (mergeHeaders set0.headers
                         [("x-upto-session-id", sid)]) },
              early := none }
      else
        { events := events, x402Result := .paymentVerified payload reqs,
          x402Tracking := none, set := set0, early := none }
  | .noPaymentRequired =>
      { events := events, x402Result := .noPaymentRequired,
        x402Tracking := none, set := set0, early := none }

/-- The `onAfterHandle` hook (middleware.ts:360-385); returns the settle
events it emits and the updated `ctx.set`. -/
def onAfterHandle (env : Env)
    (state : Option (HTTPProcessResult × Option TrackingResult))
    (set0 : SetState) : List Event × SetState :=
  match state with
  | none => ([], set0)
  | some (result, tracking) =>
    match result with
    | .paymentVerified payload reqs =>
      if reqs.scheme = "upto" then
        match tracking with
        | some (.ok sid) =>
            ([], { set0 with
                   headers := some (mergeHeaders set0.headers
                     [("x-upto-session-id", sid)]) })
        | _ => ([], set0)
      else if env.autoSettle = false then ([], set0)
      else
        let settlement := env.settle payload reqs
        if settlement.success then
          ([.settleCall], { set0 with
                            headers := some (mergeHeaders set0.headers
                              settlement.headers) })
        else ([.settleCall], set0)
    | _ => ([], set0)

/-- The outcome of one request through the middleware. -/
structure RequestOutcome where
  trace : List Event
  set : SetState
  early : Option EarlyResponse
deriving Repr

/-- One request through Elysia's hook pipeline with the middleware's two
global hooks installed: `onBeforeHandle` runs first; a value returned
there becomes the response and the route handler (and `onAfterHandle`,
which intercepts the handler's return) is skipped; otherwise the route
handler runs and then `onAfterHandle`. -/
def runRequest (env : Env) (ctx : BeforeCtx) : RequestOutcome :=
  let b := onBeforeHandle env ctx { status := none, headers := none }
  match b.early with
  | some e => { trace := b.events, set := b.set, early := some e }
  | none =>
      let a := onAfterHandle env (some (b.x402Result, b.x402Tracking)) b.set
      { trace := b.events ++ [.handlerRun] ++ a.1, set := a.2, early := none }

/-! ## The HTTP adapter (`createAdapter`) -/

/-- A value of the adapter's `queryParams` record:
`string | string[]`. -/
inductive QPVal where
  | one (v : String)
  | many (vs : List String)
deriving DecidableEq, Repr

/-- JS object lookup `m[k]` over an entry list with unique keys. -/
def qpLookup : List (String × QPVal) → String → Option QPVal
  | [], _ => none
  | (k', v) :: rest, k => if k' = k then some v else qpLookup rest k

/-- JS object assignment `m[k] = v` for a key already present (keeps key
order). -/
def qpUpdate : List (String × QPVal) → String → QPVal → List (String × QPVal)
  | [], _, _ => []
  | (k', v') :: rest, k, v =>
    if k' = k then (k', v) :: rest else (k', v') :: qpUpdate rest k v

/-- One iteration of `createAdapter`'s query-parameter loop
(middleware.ts:178-187). -/
def qpInsertEntry (m : List (String × QPVal)) (k v : String) :
    List (String × QPVal) :=
  match qpLookup m k with
  | none => m ++ [(k, .one v)]
  | some (.one x) => qpUpdate m k (.many [x, v])
  | some (.many xs) => qpUpdate m k (.many (xs ++ [v]))

/-- The `queryParams` record `createAdapter` builds from
`url.searchParams.entries()` (in order of occurrence in the URL). -/
def buildQueryParams (entries : List (String × String)) : List (String × QPVal) :=
  entries.foldl (fun m e => qpInsertEntry m e.1 e.2) []

/-- How one query-loop iteration changes the value stored at the inserted
key. -/
def qpStep : Option QPVal → String → Option QPVal
  | none, v => some (.one v)
  | some (.one x), v => some (.many [x, v])
  | some (.many xs), v => some (.many (xs ++ [v]))

/-- The values a key takes in the query entries, in order of occurrence. -/
def queryValues (entries : List (String × String)) (k : String) : List String :=
  (entries.filter (fun e => e.1 = k)).map Prod.snd

/-- The request as the adapter reads it: `headersGet` is the platform's
`Headers.get` (`none` for `null`), `searchEntries` the parsed query
string's key-value pairs in order of occurrence. -/
structure RequestModel where
  headersGet : String → Option String
  searchEntries : List (String × String)

/-- The alias loop of the adapter's `getHeader` (middleware.ts:195-199):
first present header among the aliases, in order. -/
def firstAliasHeader (headersGet : String → Option String) :
    List String → Option String
  | [] => none
  | a :: rest =>
    match headersGet a with
    | some v => some v
    | none => firstAliasHeader headersGet rest

/-- The adapter's `getHeader` (middleware.ts:190-202). -/
def adapterGetHeader (req : RequestModel) (paymentHeaderAliases : List String)
    (name : String) : Option String :=
  match req.headersGet name with
  | some v => some v
  | none =>
    if jsToLower name = "payment-signature" then
      firstAliasHeader req.headersGet paymentHeaderAliases
    else none

/-- `DEFAULT_PAYMENT_HEADER_ALIASES` (middleware.ts:48). -/
def DEFAULT_PAYMENT_HEADER_ALIASES : List String := ["x-payment"]

/-! ## Exact Starknet client scheme (`src/starknet/exact/client.ts`) -/

/-- A JavaScript value as `assertStarknetTypedData` discriminates them. -/
inductive JSValue where
  | null
  | undefined
  | bool (b : Bool)
  | num (n : Int)
  | str (s : String)
  | arr (xs : List JSValue)
  | obj (fields : List (String × JSValue))

/-- JS `typeof`. -/
def JSValue.typeOf : JSValue → String
  | .null => "object"
  | .undefined => "undefined"
  | .bool _ => "boolean"
  | .num _ => "number"
  | .str _ => "string"
  | .arr _ => "object"
  | .obj _ => "object"

def JSValue.isNull : JSValue → Bool
  | .null => true
  | _ => false

/-- JS `Array.isArray`. -/
def JSValue.isArrayJS : JSValue → Bool
  | .arr _ => true
  | _ => false

/-- The condition `assertStarknetTypedData` checks (client.ts:48-57):
`typeof typedData === "object" && typedData !== null &&
!Array.isArray(typedData)`; the assertion throws exactly when this is
false. -/
def starknetTypedDataOk (typedData : JSValue) : Bool :=
  (typedData.typeOf = "object" : Bool) && !typedData.isNull && !typedData.isArrayJS

/-- `StarknetNetworkId` of the chain library. -/
inductive StarknetNetworkId where
  | mainnet
  | sepolia
deriving DecidableEq, Repr

/-- An override of type `string | Partial<Record<StarknetNetworkId,
string>>` (client.ts:25-27). -/
inductive NetworkOverride where
  | all (s : String)
  | perNetwork (m : StarknetNetworkId → Option String)

/-- `resolvePaymasterEndpoint` (client.ts:59-70); `defaults` is the chain
library's `DEFAULT_PAYMASTER_ENDPOINTS`. Note the truthiness test
`override?.[network]`: an empty-string entry falls through to the
default. -/
def resolvePaymasterEndpoint (defaults : StarknetNetworkId → String)
    (network : StarknetNetworkId) (override : Option NetworkOverride) : String :=
  match override with
  | some (.all s) => s
  | some (.perNetwork m) =>
    match m network with
    | some v => if v = "" then defaults network else v
    | none => defaults network
  | none => defaults network

/-- `resolvePaymasterApiKey` (client.ts:72-80). -/
def resolvePaymasterApiKey (network : StarknetNetworkId)
    (override : Option NetworkOverride) : Option String :=
  match override with
  | some (.all s) => some s
  | some (.perNetwork m) => m network
  | none => none

/-- The payment payload built by the chain library's
`createPaymentPayload`, as client.ts reads it: `payload`, the possibly
missing `typedData` (`JSValue.undefined` when absent), and the possibly
missing `paymasterEndpoint` string. -/
structure RawPaymentPayload where
  payload : JSValue
  typedData : JSValue
  paymasterEndpoint : Option String

/-- The options record passed to the chain library (client.ts:120-124). -/
structure StarknetChainOptions where
  endpoint : String
  network : StarknetNetworkId
  apiKey : Option String

/-- The scheme's configuration (client.ts:21-28, 93-100); `account` is an
opaque handle. -/
structure ExactStarknetClientSchemeConfig where
  account : Nat
  paymasterEndpoint : Option NetworkOverride
  paymasterApiKey : Option NetworkOverride

/-- The options the scheme builds for the chain library: the spread
`...(paymasterApiKey ? { apiKey: paymasterApiKey } : {})` omits the key
when the resolved api key is absent or empty (falsy). -/
def starknetChainOptions (defaults : StarknetNetworkId → String)
    (cfg : ExactStarknetClientSchemeConfig) (network : StarknetNetworkId) :
    StarknetChainOptions :=
  { endpoint := resolvePaymasterEndpoint defaults network cfg.paymasterEndpoint,
    network := network,
    apiKey :=
      match resolvePaymasterApiKey network cfg.paymasterApiKey with
      | some s => if s = "" then none else some s
      | none => none }

/-- The value `ExactStarknetClientScheme.createPaymentPayload` returns
(client.ts:129-134). -/
structure ClientPaymentPayload where
  x402Version : Nat
  payload : JSValue
  typedData : JSValue
  paymasterEndpoint : String

/-- `ExactStarknetClientScheme.createPaymentPayload` (client.ts:102-135).
`validateNetwork` and `chainCreate` (the chain library's
`createPaymentPayload`, taking the account, version, requirements and
options) are the external chain library; a thrown error is `.error`. -/
def createStarknetPaymentPayload
    (defaults : StarknetNetworkId → String)
    (validateNetwork : String → Except String StarknetNetworkId)
    (chainCreate : Nat → Nat → PaymentRequirements → StarknetChainOptions →
      RawPaymentPayload)
    (cfg : ExactStarknetClientSchemeConfig)
    (x402Version : Nat) (requirements : PaymentRequirements) :
    Except String ClientPaymentPayload :=
  match validateNetwork requirements.network with
  | .error e => .error e
  | .ok network =>
    let opts := starknetChainOptions defaults cfg network
    let paymentPayload := chainCreate cfg.account x402Version requirements opts
    if starknetTypedDataOk paymentPayload.typedData then
      .ok { x402Version := x402Version,
            payload := paymentPayload.payload,
            typedData := paymentPayload.typedData,
            paymasterEndpoint := paymentPayload.paymasterEndpoint.getD opts.endpoint }
    else .error "Starknet payment payload missing typedData (required)."

/-! ## Concrete inputs used by witnesses and counterexamples -/

def set0W : SetState := { status := none, headers := none }

def respW : ErrorResponse :=
  { status := 402, headers := [("x-payment-required", "1")], body := "payment required" }

/-- Environment whose payment check always yields a `payment-error`. -/
def envPE : Env :=
  { proc := fun _ => .paymentError respW,
    settle := fun _ _ => { success := false, headers := [] },
    track := fun _ _ => .ok "",
    trackErrorStatus := fun _ => 0,
    trackErrorMessage := fun _ => "",
    hasUpto := false, autoTrack := true, autoSettle := true,
    routePatterns := [] }

def ctxPE : BeforeCtx := { urlPathname := "/p", path := none, route := none }

/-- Environment with upto configured whose payment check yields a verified
`upto` payment; tracking succeeds. -/
def envUpto : Env :=
  { proc := fun _ =>
      .paymentVerified { id := 0 } { scheme := "upto", network := "starknet:sepolia", id := 0 },
    settle := fun _ _ => { success := true, headers := [] },
    track := fun _ _ => .ok "sess-1",
    trackErrorStatus := fun _ => 402,
    trackErrorMessage := fun _ => "",
    hasUpto := true, autoTrack := true, autoSettle := true,
    routePatterns := [] }

def ctxUpto : BeforeCtx := { urlPathname := "/a", path := none, route := none }

/-- Environment whose payment check requires payment only at `/b`. -/
def envC7 : Env :=
  { proc := fun p => if p = "/b" then .paymentError respW else .noPaymentRequired,
    settle := fun _ _ => { success := false, headers := [] },
    track := fun _ _ => .ok "",
    trackErrorStatus := fun _ => 0,
    trackErrorMessage := fun _ => "",
    hasUpto := false, autoTrack := true, autoSettle := true,
    routePatterns := [] }

def ctxC7 : BeforeCtx := { urlPathname := "/a", path := some "b", route := none }

/-- Environment with a settlement that succeeds with one header. -/
def envC4 : Env :=
  { proc := fun _ => .noPaymentRequired,
    settle := fun _ _ => { success := true, headers := [("x-settlement", "ok")] },
    track := fun _ _ => .ok "",
    trackErrorStatus := fun _ => 0,
    trackErrorMessage := fun _ => "",
    hasUpto := false, autoTrack := true, autoSettle := true,
    routePatterns := [] }

def payloadC4 : PaymentPayload := { id := 1 }

def reqsC4 : PaymentRequirements :=
  { scheme := "exact", network := "starknet:sepolia", id := 1 }

/-- Environment configured with one dynamic route pattern. -/
def envC3 : Env :=
  { proc := fun _ => .noPaymentRequired,
    settle := fun _ _ => { success := false, headers := [] },
    track := fun _ _ => .ok "",
    trackErrorStatus := fun _ => 0,
    trackErrorMessage := fun _ => "",
    hasUpto := false, autoTrack := true, autoSettle := true,
    routePatterns := ["/api/users/[id]"] }

def ctxC3 : BeforeCtx := { urlPathname := "/users/1", path := none, route := none }

/-- A request with one repeated query key and an `x-payment` header. -/
def reqW : RequestModel :=
  { headersGet := fun n => if n = "x-payment" then some "sig-abc" else none,
    searchEntries := [("a", "1"), ("b", "2"), ("a", "3")] }

def defaultsW : StarknetNetworkId → String := fun _ => "https://paymaster.example"

def validateNetworkW : String → Except String StarknetNetworkId := fun s =>
  if s = "starknet:sepolia" then .ok .sepolia else .error "Unsupported network"

def chainCreateW :
    Nat → Nat → PaymentRequirements → StarknetChainOptions → RawPaymentPayload :=
  fun _ _ _ _ =>
    { payload := .str "calls",
      typedData := .obj [("domain", .str "d")],
      paymasterEndpoint := none }

def cfgW : ExactStarknetClientSchemeConfig :=
  { account := 7, paymasterEndpoint := none, paymasterApiKey := none }

def reqsSn : PaymentRequirements :=
  { scheme := "exact", network := "starknet:sepolia", id := 2 }

def perNetworkW : StarknetNetworkId → Option String := fun net =>
  match net with
  | .sepolia => some "https://override.example"
  | .mainnet => none

/-! ## Lemmas: set-insertion and fold membership -/

theorem mem_insertUnique_self (l : List String) (x : String) : x ∈ insertUnique l x := by
  unfold insertUnique
  split
  · assumption
  · simp

theorem subset_insertUnique (l : List String) (x : String) : l ⊆ insertUnique l x := by
  unfold insertUnique
  split
  · exact fun _ h => h
  · exact fun y hy => List.mem_append_left _ hy

theorem foldl_subset {β : Type} (f : List String → β → List String)
    (hmono : ∀ acc b, acc ⊆ f acc b) (l : List β) :
    ∀ init : List String, init ⊆ l.foldl f init := by
  induction l with
  | nil => intro init; simp only [List.foldl_nil]; exact fun _ h => h
  | cons b rest ih =>
    intro init y hy
    simp only [List.foldl_cons]
    exact ih (f init b) (hmono init b hy)

theorem mem_foldl_of_step {β : Type} (f : List String → β → List String)
    (hmono : ∀ acc b, acc ⊆ f acc b) (l : List β) (b : β) (hb : b ∈ l)
    (x : String) (hx : ∀ acc, x ∈ f acc b) :
    ∀ init : List String, x ∈ l.foldl f init := by
  induction l with
  | nil => cases hb
  | cons c rest ih =>
    intro init
    simp only [List.foldl_cons]
    rcases List.mem_cons.mp hb with h | h
    · subst h
      exact foldl_subset f hmono rest (f init b) (hx init)
    · exact ih h (f init c)

theorem expandInnerStep_mono (pre : String) (acc2 : List String) (c : String) :
    acc2 ⊆ expandInnerStep pre acc2 c := by
  unfold expandInnerStep
  by_cases h : jsStartsWith c pre = true
  · simp only [h, if_true]
    exact subset_insertUnique _ _
  · simp only [h, if_false, Bool.false_eq_true]
    exact subset_insertUnique _ _

theorem expandStep_subset (base acc : List String) (pre : String) :
    acc ⊆ expandStep base acc pre :=
  foldl_subset (expandInnerStep pre) (expandInnerStep_mono pre) base acc

theorem collectStep_mono (acc : List String) (pattern : String) :
    acc ⊆ collectStep acc pattern := by
  unfold collectStep
  split
  · exact fun _ h => h
  · dsimp only
    split
    · exact fun _ h => h
    · exact subset_insertUnique _ _

theorem base_subset_expandPathCandidates (base pats : List String) :
    base ⊆ expandPathCandidates base pats :=
  foldl_subset (expandStep base) (fun acc pre => expandStep_subset base acc pre)
    (collectPrefixes pats) base

theorem mem_collectPrefixes (pats : List String) (pat : String) (hpat : pat ∈ pats)
    (hstar : pat ≠ "*") (hpre : normalizePrefix (getStaticPrefix pat) ≠ "") :
    normalizePrefix (getStaticPrefix pat) ∈ collectPrefixes pats := by
  unfold collectPrefixes
  apply mem_foldl_of_step collectStep collectStep_mono pats pat hpat
  intro acc
  unfold collectStep
  simp only [hstar, if_false]
  simp only [hpre, if_false]
  exact mem_insertUnique_self _ _

theorem expandInnerStep_adds_prepend (pre : String) (acc2 : List String) (c : String)
    (h : jsStartsWith c pre = false) :
    normalizePathCandidate (pre ++ c) ∈ expandInnerStep pre acc2 c := by
  unfold expandInnerStep
  simp only [h, Bool.false_eq_true, if_false]
  exact mem_insertUnique_self _ _

theorem expandInnerStep_adds_strip (pre : String) (acc2 : List String) (c : String)
    (h : jsStartsWith c pre = true) :
    normalizePathCandidate
        (if jsDrop c pre.length = "" then "/" else jsDrop c pre.length)
      ∈ expandInnerStep pre acc2 c := by
  unfold expandInnerStep
  simp only [h, if_true]
  exact mem_insertUnique_self _ _

theorem mem_expandStep_prepend (base acc : List String) (pre c : String)
    (hc : c ∈ base) (h : jsStartsWith c pre = false) :
    normalizePathCandidate (pre ++ c) ∈ expandStep base acc pre := by
  unfold expandStep
  exact mem_foldl_of_step (expandInnerStep pre) (expandInnerStep_mono pre) base c hc _
    (fun acc2 => expandInnerStep_adds_prepend pre acc2 c h) acc

theorem mem_expandStep_strip (base acc : List String) (pre c : String)
    (hc : c ∈ base) (h : jsStartsWith c pre = true) :
    normalizePathCandidate
        (if jsDrop c pre.length = "" then "/" else jsDrop c pre.length)
      ∈ expandStep base acc pre := by
  unfold expandStep
  exact mem_foldl_of_step (expandInnerStep pre) (expandInnerStep_mono pre) base c hc _
    (fun acc2 => expandInnerStep_adds_strip pre acc2 c h) acc

theorem mem_expandPathCandidates_of_prefix (base pats : List String) (pre : String)
    (hpre : pre ∈ collectPrefixes pats) (x : String)
    (hx : ∀ acc, x ∈ expandStep base acc pre) :
    x ∈ expandPathCandidates base pats :=
  mem_foldl_of_step (expandStep base) (fun acc p => expandStep_subset base acc p)
    (collectPrefixes pats) pre hpre x hx base

/-! ## Lemmas: the base candidate set -/

theorem subset_addNonEmptyCandidate (l : List String) (o : Option String) :
    l ⊆ addNonEmptyCandidate l o := by
  rcases o with _ | s
  · exact fun _ h => h
  · show l ⊆ if 0 < s.length then insertUnique l (normalizePathCandidate s) else l
    split
    · exact subset_insertUnique _ _
    · exact fun _ h => h

theorem mem_addNonEmptyCandidate_self (l : List String) (s : String)
    (h : 0 < s.length) :
    normalizePathCandidate s ∈ addNonEmptyCandidate l (some s) := by
  show normalizePathCandidate s
      ∈ if 0 < s.length then insertUnique l (normalizePathCandidate s) else l
  simp only [h, if_true]
  exact mem_insertUnique_self _ _

theorem mem_getPathCandidates_url (ctx : BeforeCtx) (fallback : String) :
    normalizePathCandidate ctx.urlPathname ∈ getPathCandidates ctx fallback := by
  unfold getPathCandidates
  exact subset_addNonEmptyCandidate _ _
    (subset_addNonEmptyCandidate _ _
      (subset_insertUnique _ _ (mem_insertUnique_self _ _)))

theorem mem_getPathCandidates_path (ctx : BeforeCtx) (fallback : String)
    (p : String) (hp : ctx.path = some p) (hlen : 0 < p.length) :
    normalizePathCandidate p ∈ getPathCandidates ctx fallback := by
  unfold getPathCandidates
  rw [hp]
  exact subset_addNonEmptyCandidate _ _ (mem_addNonEmptyCandidate_self _ _ hlen)

theorem mem_getPathCandidates_route (ctx : BeforeCtx) (fallback : String)
    (r : String) (hr : ctx.route = some r) (hlen : 0 < r.length) :
    normalizePathCandidate r ∈ getPathCandidates ctx fallback := by
  unfold getPathCandidates
  rw [hr]
  exact mem_addNonEmptyCandidate_self _ _ hlen

theorem getPathCandidates_ne_nil (ctx : BeforeCtx) (fallback : String) :
    getPathCandidates ctx fallback ≠ [] :=
  List.ne_nil_of_mem (mem_getPathCandidates_url ctx fallback)

/-- C3: For every request, the set of candidate paths tried against the
configured routes contains (i) the pathname parsed from the raw request
URL, (ii) the framework-provided `ctx.path` and `ctx.route` whenever they
are non-empty strings, each normalized to start with `/`, and (iii) for
every (non-empty) static prefix extracted from a configured route
pattern, each base candidate with that prefix prepended when it does not
already start with it, and with that prefix stripped when it does. -/
theorem path_candidates_complete (env : Env) (ctx : BeforeCtx) :
    normalizePathCandidate ctx.urlPathname ∈ candidatePaths env ctx
    ∧ (∀ p, ctx.path = some p → 0 < p.length →
        normalizePathCandidate p ∈ candidatePaths env ctx)
    ∧ (∀ r, ctx.route = some r → 0 < r.length →
        normalizePathCandidate r ∈ candidatePaths env ctx)
    ∧ (∀ pat ∈ env.routePatterns, pat ≠ "*" →
        normalizePrefix (getStaticPrefix pat) ≠ "" →
        ∀ c ∈ getPathCandidates ctx (adapterPath ctx),
          (jsStartsWith c (normalizePrefix (getStaticPrefix pat)) = false →
            normalizePathCandidate (normalizePrefix (getStaticPrefix pat) ++ c)
              ∈ candidatePaths env ctx)
          ∧ (jsStartsWith c (normalizePrefix (getStaticPrefix pat)) = true →
            normalizePathCandidate
                (if jsDrop c (normalizePrefix (getStaticPrefix pat)).length = ""
                 then "/"
                 else jsDrop c (normalizePrefix (getStaticPrefix pat)).length)
              ∈ candidatePaths env ctx)) := by
  unfold candidatePaths
  refine ⟨?_, ?_, ?_, ?_⟩
  · exact base_subset_expandPathCandidates _ _ (mem_getPathCandidates_url ctx _)
  · intro p hp hlen
    exact base_subset_expandPathCandidates _ _
      (mem_getPathCandidates_path ctx _ p hp hlen)
  · intro r hr hlen
    exact base_subset_expandPathCandidates _ _
      (mem_getPathCandidates_route ctx _ r hr hlen)
  · intro pat hpat hstar hpre c hc
    have hmem := mem_collectPrefixes env.routePatterns pat hpat hstar hpre
    constructor
    · intro h
      exact mem_expandPathCandidates_of_prefix _ _ _ hmem _
        (fun acc => mem_expandStep_prepend _ acc _ c hc h)
    · intro h
      exact mem_expandPathCandidates_of_prefix _ _ _ hmem _
        (fun acc => mem_expandStep_strip _ acc _ c hc h)

/-- Witness for C3 at a concrete request: for route pattern
`/api/users/[id]` (static prefix `/api`) and raw pathname `/users/1`, the
prefixed candidate `/api/users/1` is tried. -/
theorem path_candidates_complete_witness :
    normalizePathCandidate
        (normalizePrefix (getStaticPrefix "/api/users/[id]") ++ "/users/1")
      ∈ candidatePaths envC3 ctxC3 :=
  ((path_candidates_complete envC3 ctxC3).2.2.2 "/api/users/[id]" (by decide)
    (by decide) (by decide) "/users/1" (by decide)).1 (by decide)

/-! ## Lemmas: the processHTTPRequest loop -/

theorem runCandidates_all_npr (proc : String → HTTPProcessResult) (l : List String)
    (h : ∀ x ∈ l, (proc x).rtype = "no-payment-required") :
    ∀ r0, runCandidates proc l r0 = (l, (l.map proc).getLastD r0) := by
  induction l with
  | nil => intro r0; rfl
  | cons c rest ih =>
    intro r0
    have hc : (proc c).rtype = "no-payment-required" := h c (List.mem_cons_self c rest)
    unfold runCandidates
    simp only [hc, if_true, if_pos]
    rw [ih (fun x hx => h x (List.mem_cons_of_mem c hx)) (proc c)]
    rw [List.map_cons, List.getLastD_cons]

theorem runCandidates_first_hit (proc : String → HTTPProcessResult)
    (l1 : List String) (c : String) (l2 : List String)
    (h1 : ∀ x ∈ l1, (proc x).rtype = "no-payment-required")
    (hc : (proc c).rtype ≠ "no-payment-required") :
    ∀ r0, runCandidates proc (l1 ++ c :: l2) r0 = (l1 ++ [c], proc c) := by
  induction l1 with
  | nil =>
    intro r0
    unfold runCandidates
    simp only [hc, if_false, List.nil_append]
  | cons a as ih =>
    intro r0
    have ha : (proc a).rtype = "no-payment-required" := h1 a (List.mem_cons_self a as)
    unfold runCandidates
    simp only [List.cons_append, ha, if_true, if_pos]
    rw [ih (fun x hx => h1 x (List.mem_cons_of_mem a hx)) (proc a)]

theorem runCandidates_snd_mem (proc : String → HTTPProcessResult) (l : List String)
    (h : l ≠ []) : ∀ r0, ∃ c ∈ l, (runCandidates proc l r0).2 = proc c := by
  induction l with
  | nil => cases h rfl
  | cons c rest ih =>
    intro r0
    by_cases hc : (proc c).rtype = "no-payment-required"
    · cases rest with
      | nil =>
        refine ⟨c, List.mem_cons_self c [], ?_⟩
        simp [runCandidates, hc]
      | cons d ds =>
        obtain ⟨x, hx, hres⟩ := ih (by simp) (proc c)
        refine ⟨x, List.mem_cons_of_mem c hx, ?_⟩
        unfold runCandidates
        simp only [hc, if_true, if_pos]
        exact hres
    · refine ⟨c, List.mem_cons_self c rest, ?_⟩
      unfold runCandidates
      simp [hc]

theorem rtype_eq_npr_iff (r : HTTPProcessResult) :
    r.rtype = "no-payment-required" ↔ r = .noPaymentRequired := by
  cases r <;> simp [HTTPProcessResult.rtype]

theorem candidatePaths_ne_nil (env : Env) (ctx : BeforeCtx) :
    candidatePaths env ctx ≠ [] := by
  unfold candidatePaths
  exact List.ne_nil_of_mem
    (base_subset_expandPathCandidates _ _ (mem_getPathCandidates_url ctx _))

/-! ## Lemmas: the onBeforeHandle / onAfterHandle hooks -/

theorem onBeforeHandle_x402Result (env : Env) (ctx : BeforeCtx) (set0 : SetState) :
    (onBeforeHandle env ctx set0).x402Result
      = (runCandidates env.proc (candidatePaths env ctx) .noPaymentRequired).2 := by
  unfold onBeforeHandle
  dsimp only
  split
  · simp_all
  · split
    · split <;> simp_all
    · simp_all
  · simp_all

theorem onBeforeHandle_paymentError (env : Env) (ctx : BeforeCtx) (set0 : SetState)
    (resp : ErrorResponse)
    (h : (runCandidates env.proc (candidatePaths env ctx) .noPaymentRequired).2
        = .paymentError resp) :
    onBeforeHandle env ctx set0
      = { events := (runCandidates env.proc (candidatePaths env ctx)
            .noPaymentRequired).1.map Event.procCall,
          x402Result := .paymentError resp, x402Tracking := none,
          set := { status := some resp.status,
                   headers := some (mergeHeaders set0.headers resp.headers) },
          early := some (.paymentErrorBody resp.body) } := by
  unfold onBeforeHandle
  dsimp only
  split <;> simp_all

theorem onBeforeHandle_npr (env : Env) (ctx : BeforeCtx) (set0 : SetState)
    (h : (runCandidates env.proc (candidatePaths env ctx) .noPaymentRequired).2
        = .noPaymentRequired) :
    onBeforeHandle env ctx set0
      = { events := (runCandidates env.proc (candidatePaths env ctx)
            .noPaymentRequired).1.map Event.procCall,
          x402Result := .noPaymentRequired, x402Tracking := none,
          set := set0, early := none } := by
  unfold onBeforeHandle
  dsimp only
  split <;> simp_all

theorem onBeforeHandle_events_shape (env : Env) (ctx : BeforeCtx) (set0 : SetState) :
    ∀ e ∈ (onBeforeHandle env ctx set0).events,
      (∃ p, e = Event.procCall p) ∨ e = Event.trackCall := by
  have hmap : ∀ (l : List String) (e : Event), e ∈ l.map Event.procCall →
      (∃ p, e = Event.procCall p) ∨ e = Event.trackCall := by
    intro l e he
    rcases List.mem_map.mp he with ⟨p, _, rfl⟩
    exact Or.inl ⟨p, rfl⟩
  unfold onBeforeHandle
  dsimp only
  split
  · exact fun e he => hmap _ e he
  · split
    · split <;>
        (intro e he
         rcases List.mem_append.mp he with h | h
         · exact hmap _ e h
         · rw [List.mem_singleton.mp h]
           exact Or.inr rfl)
    · exact fun e he => hmap _ e he
  · exact fun e he => hmap _ e he

theorem onAfterHandle_events_shape (env : Env)
    (state : Option (HTTPProcessResult × Option TrackingResult)) (set1 : SetState) :
    ∀ e ∈ (onAfterHandle env state set1).1, e = Event.settleCall := by
  unfold onAfterHandle
  dsimp only
  split
  · simp
  · split
    · split
      · split <;> simp
      · split
        · simp
        · split <;> simp
    · simp

/-- C2: Whenever the pre-handler payment check yields a `payment-error`
result, the `onBeforeHandle` hook sets the response status to the error
response's status, merges the error response's headers into the response
headers, and returns the error response's body, so the route handler is
never invoked for that request. -/
theorem payment_error_short_circuit (env : Env) (ctx : BeforeCtx) (set0 : SetState)
    (resp : ErrorResponse)
    (h : (runCandidates env.proc (candidatePaths env ctx) .noPaymentRequired).2
        = .paymentError resp) :
    (onBeforeHandle env ctx set0).set.status = some resp.status
    ∧ (onBeforeHandle env ctx set0).set.headers
        = some (set0.headers.getD [] ++ resp.headers)
    ∧ (onBeforeHandle env ctx set0).early = some (.paymentErrorBody resp.body)
    ∧ Event.handlerRun ∉ (runRequest env ctx).trace := by
  refine ⟨?_, ?_, ?_, ?_⟩
  · rw [onBeforeHandle_paymentError env ctx set0 resp h]
  · rw [onBeforeHandle_paymentError env ctx set0 resp h]
    rfl
  · rw [onBeforeHandle_paymentError env ctx set0 resp h]
  · intro hmem
    unfold runRequest at hmem
    rw [onBeforeHandle_paymentError env ctx _ resp h] at hmem
    simp only [List.mem_map] at hmem
    obtain ⟨p, _, hp⟩ := hmem
    cases hp

/-- Witness for C2 at a concrete request whose payment check fails. -/
theorem payment_error_short_circuit_witness :
    (onBeforeHandle envPE ctxPE set0W).set.status = some respW.status
    ∧ (onBeforeHandle envPE ctxPE set0W).set.headers
        = some (set0W.headers.getD [] ++ respW.headers)
    ∧ (onBeforeHandle envPE ctxPE set0W).early = some (.paymentErrorBody respW.body)
    ∧ Event.handlerRun ∉ (runRequest envPE ctxPE).trace :=
  payment_error_short_circuit envPE ctxPE set0W respW (by decide)

/-- C7: `onBeforeHandle` calls `processHTTPRequest` on the candidate
paths in order and stops at the first candidate whose result type is not
`no-payment-required`; the result stored in `ctx.x402` is that first such
result, and when every candidate yields `no-payment-required` it is the
last candidate's result and the request proceeds with no early
response. -/
theorem first_non_npr_result (env : Env) (ctx : BeforeCtx) (set0 : SetState) :
    (∀ l1 c l2, candidatePaths env ctx = l1 ++ c :: l2 →
        (∀ x ∈ l1, (env.proc x).rtype = "no-payment-required") →
        (env.proc c).rtype ≠ "no-payment-required" →
        runCandidates env.proc (candidatePaths env ctx) .noPaymentRequired
            = (l1 ++ [c], env.proc c)
        ∧ (onBeforeHandle env ctx set0).x402Result = env.proc c)
    ∧ ((∀ x ∈ candidatePaths env ctx, (env.proc x).rtype = "no-payment-required") →
        ∃ c, (candidatePaths env ctx).getLast? = some c
          ∧ (onBeforeHandle env ctx set0).x402Result = env.proc c
          ∧ (onBeforeHandle env ctx set0).early = none) := by
  constructor
  · intro l1 c l2 heq h1 hc
    have hrun := runCandidates_first_hit env.proc l1 c l2 h1 hc
      HTTPProcessResult.noPaymentRequired
    rw [heq]
    refine ⟨hrun, ?_⟩
    rw [onBeforeHandle_x402Result, heq, hrun]
  · intro hall
    obtain ⟨c, hc⟩ : ∃ c, (candidatePaths env ctx).getLast? = some c := by
      cases hl : (candidatePaths env ctx).getLast? with
      | none => exact absurd (List.getLast?_eq_none_iff.mp hl) (candidatePaths_ne_nil env ctx)
      | some c => exact ⟨c, rfl⟩
    have hrun := runCandidates_all_npr env.proc (candidatePaths env ctx) hall
      HTTPProcessResult.noPaymentRequired
    have hres : (runCandidates env.proc (candidatePaths env ctx)
        HTTPProcessResult.noPaymentRequired).2 = env.proc c := by
      rw [hrun]
      show (List.map env.proc (candidatePaths env ctx)).getLastD
        HTTPProcessResult.noPaymentRequired = env.proc c
      rw [List.getLastD_eq_getLast?, List.getLast?_map, hc]
      rfl
    have hnprc : env.proc c = HTTPProcessResult.noPaymentRequired :=
      (rtype_eq_npr_iff _).mp (hall c (List.mem_of_getLast?_eq_some hc))
    refine ⟨c, hc, ?_, ?_⟩
    · rw [onBeforeHandle_x402Result, hres]
    · rw [onBeforeHandle_npr env ctx set0 (by rw [hres, hnprc])]

/-- Witness for C7: with candidates `["/a", "/b"]` where only `/b` requires
payment, the loop stops at `/b` and stores its result. -/
theorem first_non_npr_result_witness :
    runCandidates envC7.proc (candidatePaths envC7 ctxC7) .noPaymentRequired
        = (["/a"] ++ ["/b"], envC7.proc "/b")
    ∧ (onBeforeHandle envC7 ctxC7 set0W).x402Result = envC7.proc "/b" :=
  (first_non_npr_result envC7 ctxC7 set0W).1 ["/a"] "/b" [] (by decide) (by decide)
    (by decide)

/-- C4: The middleware never computes a payment verdict itself: the
result stored in `ctx.x402` is exactly a value returned by the external
library's `processHTTPRequest` for one of the candidate paths, and the
settlement outcome applied to the response is exactly the value returned
by the external library's `processSettlement` (for a non-upto verified
payment with auto-settlement on, the hook emits exactly one settlement
call and applies that call's headers exactly when it succeeded). -/
theorem verdict_from_library (env : Env) (ctx : BeforeCtx) (set0 set1 : SetState)
    (payload : PaymentPayload) (reqs : PaymentRequirements)
    (tr : Option TrackingResult)
    (hscheme : reqs.scheme ≠ "upto") (hsettle : env.autoSettle = true) :
    (∃ c ∈ candidatePaths env ctx,
        (onBeforeHandle env ctx set0).x402Result = env.proc c)
    ∧ (onAfterHandle env (some (.paymentVerified payload reqs, tr)) set1).1
        = [Event.settleCall]
    ∧ (onAfterHandle env (some (.paymentVerified payload reqs, tr)) set1).2.headers
        = (if (env.settle payload reqs).success = true
           then some (mergeHeaders set1.headers (env.settle payload reqs).headers)
           else set1.headers) := by
  refine ⟨?_, ?_, ?_⟩
  · obtain ⟨c, hc, hr⟩ := runCandidates_snd_mem env.proc _
      (candidatePaths_ne_nil env ctx) HTTPProcessResult.noPaymentRequired
    exact ⟨c, hc, by rw [onBeforeHandle_x402Result]; exact hr⟩
  · unfold onAfterHandle
    dsimp only
    rw [if_neg hscheme, if_neg (by simp [hsettle])]
    split <;> rfl
  · unfold onAfterHandle
    dsimp only
    rw [if_neg hscheme, if_neg (by simp [hsettle])]
    split <;> simp_all

/-- Witness for C4 at a concrete request and settlement. -/
theorem verdict_from_library_witness :
    (∃ c ∈ candidatePaths envC4 ctxPE,
        (onBeforeHandle envC4 ctxPE set0W).x402Result = envC4.proc c)
    ∧ (onAfterHandle envC4 (some (.paymentVerified payloadC4 reqsC4, none)) set0W).1
        = [Event.settleCall]
    ∧ (onAfterHandle envC4
          (some (.paymentVerified payloadC4 reqsC4, none)) set0W).2.headers
        = (if (envC4.settle payloadC4 reqsC4).success = true
           then some (mergeHeaders set0W.headers (envC4.settle payloadC4 reqsC4).headers)
           else set0W.headers) :=
  verdict_from_library envC4 ctxPE set0W set0W payloadC4 reqsC4 none (by decide) rfl

/-- C1 (amended): the payment check (every `processHTTPRequest` call) and
upto tracking happen in the pre-handler phase, before the route handler
runs; the post-handler phase performs only settlement: every event after
the handler ran is a `processSettlement` call. (The original claim placed
upto tracking in the post-handler phase; tracking happens pre-handler.) -/
theorem lifecycle_two_phase (env : Env) (ctx : BeforeCtx) :
    ∃ checks post,
      (runRequest env ctx).trace = checks ++ post
      ∧ (∀ e ∈ checks, (∃ p, e = Event.procCall p) ∨ e = Event.trackCall)
      ∧ ((runRequest env ctx).early = none →
          ∃ settles, post = Event.handlerRun :: settles
            ∧ ∀ e ∈ settles, e = Event.settleCall)
      ∧ ((runRequest env ctx).early ≠ none → post = []) := by
  cases hb : (onBeforeHandle env ctx { status := none, headers := none }).early with
  | some e =>
    refine ⟨(onBeforeHandle env ctx { status := none, headers := none }).events, [],
      ?_, onBeforeHandle_events_shape env ctx _, ?_, fun _ => rfl⟩
    · simp [runRequest, hb]
    · intro h
      simp [runRequest, hb] at h
  | none =>
    refine ⟨(onBeforeHandle env ctx { status := none, headers := none }).events,
      Event.handlerRun ::
        (onAfterHandle env
          (some ((onBeforeHandle env ctx { status := none, headers := none }).x402Result,
            (onBeforeHandle env ctx { status := none, headers := none }).x402Tracking))
          (onBeforeHandle env ctx { status := none, headers := none }).set).1,
      ?_, onBeforeHandle_events_shape env ctx _, ?_, ?_⟩
    · simp [runRequest, hb]
    · intro _
      exact ⟨_, rfl, onAfterHandle_events_shape env _ _⟩
    · intro h
      simp [runRequest, hb] at h

/-- Witness for C1 (amended) at a concrete request. -/
theorem lifecycle_two_phase_witness :
    ∃ checks post,
      (runRequest envC4 ctxPE).trace = checks ++ post
      ∧ (∀ e ∈ checks, (∃ p, e = Event.procCall p) ∨ e = Event.trackCall)
      ∧ ((runRequest envC4 ctxPE).early = none →
          ∃ settles, post = Event.handlerRun :: settles
            ∧ ∀ e ∈ settles, e = Event.settleCall)
      ∧ ((runRequest envC4 ctxPE).early ≠ none → post = []) :=
  lifecycle_two_phase envC4 ctxPE

/-- Counterexample to C1 as stated: for a verified `upto` payment with
tracking configured, the trace is `[procCall, trackCall, handlerRun]` —
the `trackUptoPayment` call happens strictly before the route handler
runs, not in the post-handler phase. -/
theorem lifecycle_tracking_pre_handler_cex :
    (runRequest envUpto ctxUpto).trace
      = [Event.procCall "/a", Event.trackCall, Event.handlerRun]
    ∧ (runRequest envUpto ctxUpto).trace.indexOf Event.trackCall
        < (runRequest envUpto ctxUpto).trace.indexOf Event.handlerRun := by
  decide

/-! ## Lemmas: the adapter's query parameters -/

theorem qpLookup_append_right (m m' : List (String × QPVal)) (k : String)
    (h : qpLookup m k = none) : qpLookup (m ++ m') k = qpLookup m' k := by
  induction m with
  | nil => rfl
  | cons e rest ih =>
    rcases e with ⟨k', v⟩
    simp only [qpLookup] at h
    simp only [List.cons_append, qpLookup]
    by_cases hk : k' = k
    · rw [if_pos hk] at h
      exact Option.noConfusion h
    · rw [if_neg hk] at h
      rw [if_neg hk]
      exact ih h

theorem qpLookup_append_left (m m' : List (String × QPVal)) (k : String) (w : QPVal)
    (h : qpLookup m k = some w) : qpLookup (m ++ m') k = some w := by
  induction m with
  | nil => exact Option.noConfusion h
  | cons e rest ih =>
    rcases e with ⟨k', v⟩
    simp only [qpLookup] at h
    simp only [List.cons_append, qpLookup]
    by_cases hk : k' = k
    · rw [if_pos hk] at h
      rw [if_pos hk]
      exact h
    · rw [if_neg hk] at h
      rw [if_neg hk]
      exact ih h

theorem qpLookup_qpUpdate_self (m : List (String × QPVal)) (k : String) (v w : QPVal)
    (h : qpLookup m k = some w) : qpLookup (qpUpdate m k v) k = some v := by
  induction m with
  | nil => exact Option.noConfusion h
  | cons e rest ih =>
    rcases e with ⟨k0, v0⟩
    simp only [qpLookup] at h
    simp only [qpUpdate]
    by_cases hk : k0 = k
    · rw [if_pos hk]
      simp only [qpLookup]
      rw [if_pos hk]
    · rw [if_neg hk] at h
      rw [if_neg hk]
      simp only [qpLookup]
      rw [if_neg hk]
      exact ih h

theorem qpLookup_qpUpdate_other (m : List (String × QPVal)) (k k' : String)
    (v : QPVal) (hk : k' ≠ k) : qpLookup (qpUpdate m k v) k' = qpLookup m k' := by
  induction m with
  | nil => rfl
  | cons e rest ih =>
    rcases e with ⟨k0, v0⟩
    simp only [qpUpdate]
    by_cases h0 : k0 = k
    · rw [if_pos h0]
      simp only [qpLookup]
      have hne : ¬ (k0 = k') := fun hh => hk (hh ▸ h0)
      rw [if_neg hne, if_neg hne]
    · rw [if_neg h0]
      simp only [qpLookup]
      by_cases h1 : k0 = k'
      · rw [if_pos h1, if_pos h1]
      · rw [if_neg h1, if_neg h1]
        exact ih

theorem qpLookup_qpInsertEntry_self (m : List (String × QPVal)) (k v : String) :
    qpLookup (qpInsertEntry m k v) k = qpStep (qpLookup m k) v := by
  unfold qpInsertEntry
  cases h : qpLookup m k with
  | none =>
    rw [qpLookup_append_right m _ k h]
    simp [qpLookup, qpStep]
  | some w =>
    cases w with
    | one x => rw [qpLookup_qpUpdate_self m k _ _ h]; rfl
    | many xs => rw [qpLookup_qpUpdate_self m k _ _ h]; rfl

theorem qpLookup_qpInsertEntry_other (m : List (String × QPVal)) (k k' v : String)
    (hk : k' ≠ k) : qpLookup (qpInsertEntry m k v) k' = qpLookup m k' := by
  unfold qpInsertEntry
  cases h : qpLookup m k with
  | none =>
    cases h' : qpLookup m k' with
    | none =>
      rw [qpLookup_append_right m _ k' h']
      simp [qpLookup, Ne.symm hk]
    | some w => rw [qpLookup_append_left m _ k' w h']
  | some w =>
    cases w with
    | one x => exact qpLookup_qpUpdate_other m k k' _ hk
    | many xs => exact qpLookup_qpUpdate_other m k k' _ hk

theorem buildQueryParams_foldl (entries : List (String × String)) (k : String) :
    ∀ m, qpLookup (entries.foldl (fun m e => qpInsertEntry m e.1 e.2) m) k
      = (queryValues entries k).foldl qpStep (qpLookup m k) := by
  induction entries with
  | nil => intro m; rfl
  | cons e rest ih =>
    intro m
    rcases e with ⟨k0, v0⟩
    simp only [List.foldl_cons]
    rw [ih]
    unfold queryValues
    by_cases hk : k0 = k
    · subst hk
      simp only [List.filter_cons, decide_eq_true_eq, if_pos rfl, List.map_cons,
        List.foldl_cons]
      rw [qpLookup_qpInsertEntry_self]
      rfl
    · simp only [List.filter_cons]
      have : (decide ((k0, v0).1 = k)) = false := by simp [hk]
      rw [this]
      rw [qpLookup_qpInsertEntry_other m k0 k v0 (Ne.symm hk)]
      rfl

theorem qpStep_foldl_many (vs : List String) :
    ∀ xs, vs.foldl qpStep (some (.many xs)) = some (.many (xs ++ vs)) := by
  induction vs with
  | nil => intro xs; simp
  | cons v rest ih =>
    intro xs
    simp only [List.foldl_cons, qpStep]
    rw [ih]
    simp

/-- C6: the adapter reports query parameters such that a key occurring
exactly once in the request URL's query string maps to its single string
value, and a key occurring two or more times maps to the array of all its
values in their order of occurrence. -/
theorem query_params_multiplicity (entries : List (String × String)) (k : String) :
    (queryValues entries k = [] → qpLookup (buildQueryParams entries) k = none)
    ∧ (∀ v, queryValues entries k = [v] →
        qpLookup (buildQueryParams entries) k = some (.one v))
    ∧ (∀ v1 v2 vs, queryValues entries k = v1 :: v2 :: vs →
        qpLookup (buildQueryParams entries) k = some (.many (v1 :: v2 :: vs))) := by
  have hbase := buildQueryParams_foldl entries k []
  refine ⟨?_, ?_, ?_⟩
  · intro h
    unfold buildQueryParams
    rw [hbase, h]
    rfl
  · intro v h
    unfold buildQueryParams
    rw [hbase, h]
    rfl
  · intro v1 v2 vs h
    unfold buildQueryParams
    rw [hbase, h]
    simp only [List.foldl_cons, qpStep, qpLookup]
    rw [qpStep_foldl_many]
    rfl

/-- Witness for C6: key `b` occurs once, key `a` twice. -/
theorem query_params_multiplicity_witness :
    qpLookup (buildQueryParams reqW.searchEntries) "b" = some (.one "2")
    ∧ qpLookup (buildQueryParams reqW.searchEntries) "a" = some (.many ["1", "3"]) :=
  ⟨(query_params_multiplicity reqW.searchEntries "b").2.1 "2" (by decide),
   (query_params_multiplicity reqW.searchEntries "a").2.2 "1" "3" [] (by decide)⟩

/-- C8: `adapter.getHeader(name)` returns the request header's value when
present; when absent it falls back to the first present header among the
configured payment header aliases (default `["x-payment"]`, in order)
exactly when `name` lowercases to `payment-signature`; in every other
case it returns `undefined`. -/
theorem get_header_alias_fallback (req : RequestModel) (aliases : List String)
    (name : String) :
    DEFAULT_PAYMENT_HEADER_ALIASES = ["x-payment"]
    ∧ (∀ v, req.headersGet name = some v →
        adapterGetHeader req aliases name = some v)
    ∧ (req.headersGet name = none → jsToLower name = "payment-signature" →
        (∀ l1 a l2 v, aliases = l1 ++ a :: l2 →
          (∀ x ∈ l1, req.headersGet x = none) → req.headersGet a = some v →
          adapterGetHeader req aliases name = some v)
        ∧ ((∀ a ∈ aliases, req.headersGet a = none) →
          adapterGetHeader req aliases name = none))
    ∧ (req.headersGet name = none → jsToLower name ≠ "payment-signature" →
        adapterGetHeader req aliases name = none) := by
  refine ⟨rfl, ?_, ?_, ?_⟩
  · intro v hv
    unfold adapterGetHeader
    rw [hv]
  · intro habs hlow
    have hbase : adapterGetHeader req aliases name
        = firstAliasHeader req.headersGet aliases := by
      unfold adapterGetHeader
      rw [habs, if_pos hlow]
    constructor
    · intro l1 a l2 v heq hnone hv
      rw [hbase, heq]
      clear hbase heq
      induction l1 with
      | nil => simp [firstAliasHeader, hv]
      | cons x xs ih =>
        have hx : req.headersGet x = none := hnone x (List.mem_cons_self x xs)
        simp only [List.cons_append, firstAliasHeader, hx]
        exact ih (fun y hy => hnone y (List.mem_cons_of_mem x hy))
    · intro hall
      rw [hbase]
      clear hbase
      induction aliases with
      | nil => rfl
      | cons a rest ih =>
        have ha : req.headersGet a = none := hall a (List.mem_cons_self a rest)
        simp only [firstAliasHeader, ha]
        exact ih (fun y hy => hall y (List.mem_cons_of_mem a hy))
  · intro habs hlow
    unfold adapterGetHeader
    rw [habs, if_neg hlow]

/-- Witness for C8: `Payment-Signature` is absent from the request, the
`x-payment` alias is present, and its value is returned. -/
theorem get_header_alias_fallback_witness :
    adapterGetHeader reqW DEFAULT_PAYMENT_HEADER_ALIASES "Payment-Signature"
      = some "sig-abc" :=
  (((get_header_alias_fallback reqW DEFAULT_PAYMENT_HEADER_ALIASES
    "Payment-Signature").2.2.1 (by decide) (by decide)).1 [] "x-payment" [] "sig-abc"
    rfl (by intro x hx; cases hx) (by decide))

/-! ## Starknet claim theorems -/

theorem starknetTypedDataOk_iff (v : JSValue) :
    starknetTypedDataOk v = true ↔ ∃ fields, v = JSValue.obj fields := by
  cases v <;> simp [starknetTypedDataOk, JSValue.typeOf, JSValue.isNull,
    JSValue.isArrayJS]

/-- C5: `ExactStarknetClientScheme.createPaymentPayload` returns a payment
payload that includes the `typedData` object produced by the chain
library, and it throws
`"Starknet payment payload missing typedData (required)."` exactly when
the payload built by the chain library has no `typedData` field that is a
non-null, non-array object. -/
theorem starknet_typed_data_payload (defaults : StarknetNetworkId → String)
    (validateNetwork : String → Except String StarknetNetworkId)
    (chainCreate : Nat → Nat → PaymentRequirements → StarknetChainOptions →
      RawPaymentPayload)
    (cfg : ExactStarknetClientSchemeConfig) (x402Version : Nat)
    (requirements : PaymentRequirements) (network : StarknetNetworkId)
    (hnet : validateNetwork requirements.network = .ok network) :
    ((∃ fields,
        (chainCreate cfg.account x402Version requirements
          (starknetChainOptions defaults cfg network)).typedData
          = JSValue.obj fields) →
      createStarknetPaymentPayload defaults validateNetwork chainCreate cfg
          x402Version requirements
        = .ok { x402Version := x402Version,
                payload := (chainCreate cfg.account x402Version requirements
                  (starknetChainOptions defaults cfg network)).payload,
                typedData := (chainCreate cfg.account x402Version requirements
                  (starknetChainOptions defaults cfg network)).typedData,
                paymasterEndpoint := (chainCreate cfg.account x402Version requirements
                  (starknetChainOptions defaults cfg network)).paymasterEndpoint.getD
                    (starknetChainOptions defaults cfg network).endpoint })
    ∧ ((¬ ∃ fields,
        (chainCreate cfg.account x402Version requirements
          (starknetChainOptions defaults cfg network)).typedData
          = JSValue.obj fields) →
      createStarknetPaymentPayload defaults validateNetwork chainCreate cfg
          x402Version requirements
        = .error "Starknet payment payload missing typedData (required).") := by
  constructor
  · intro hobj
    unfold createStarknetPaymentPayload
    rw [hnet]
    dsimp only
    rw [if_pos ((starknetTypedDataOk_iff _).mpr hobj)]
  · intro hobj
    unfold createStarknetPaymentPayload
    rw [hnet]
    dsimp only
    rw [if_neg (fun hok => hobj ((starknetTypedDataOk_iff _).mp hok))]

/-- Witness for C5 at a concrete configuration whose chain payload carries
a typed-data object. -/
theorem starknet_typed_data_payload_witness :
    createStarknetPaymentPayload defaultsW validateNetworkW chainCreateW cfgW 1 reqsSn
      = .ok { x402Version := 1,
              payload := (chainCreateW cfgW.account 1 reqsSn
                (starknetChainOptions defaultsW cfgW .sepolia)).payload,
              typedData := (chainCreateW cfgW.account 1 reqsSn
                (starknetChainOptions defaultsW cfgW .sepolia)).typedData,
              paymasterEndpoint := (chainCreateW cfgW.account 1 reqsSn
                (starknetChainOptions defaultsW cfgW .sepolia)).paymasterEndpoint.getD
                  (starknetChainOptions defaultsW cfgW .sepolia).endpoint } :=
  (starknet_typed_data_payload defaultsW validateNetworkW chainCreateW cfgW 1 reqsSn
    .sepolia rfl).1 ⟨[("domain", .str "d")], rfl⟩

/-- C9: `resolvePaymasterEndpoint` returns a string override itself for
every network; for a per-network map it returns the network's entry when
present and non-empty, and the default `DEFAULT_PAYMASTER_ENDPOINTS`
entry otherwise (including when no override is given). -/
theorem paymaster_endpoint_resolution (defaults : StarknetNetworkId → String)
    (network : StarknetNetworkId) :
    (∀ s, resolvePaymasterEndpoint defaults network (some (.all s)) = s)
    ∧ (∀ m v, m network = some v → v ≠ "" →
        resolvePaymasterEndpoint defaults network (some (.perNetwork m)) = v)
    ∧ (∀ m, m network = some "" →
        resolvePaymasterEndpoint defaults network (some (.perNetwork m))
          = defaults network)
    ∧ (∀ m, m network = none →
        resolvePaymasterEndpoint defaults network (some (.perNetwork m))
          = defaults network)
    ∧ resolvePaymasterEndpoint defaults network none = defaults network := by
  refine ⟨fun s => rfl, ?_, ?_, ?_, rfl⟩
  · intro m v hm hv
    unfold resolvePaymasterEndpoint
    dsimp only
    rw [hm]
    dsimp only
    rw [if_neg hv]
  · intro m hm
    unfold resolvePaymasterEndpoint
    dsimp only
    rw [hm]
    rfl
  · intro m hm
    unfold resolvePaymasterEndpoint
    dsimp only
    rw [hm]

/-- Witness for C9: a per-network map override with a non-empty entry for
`sepolia` and no entry for `mainnet`. -/
theorem paymaster_endpoint_resolution_witness :
    resolvePaymasterEndpoint defaultsW .sepolia (some (.perNetwork perNetworkW))
        = "https://override.example"
    ∧ resolvePaymasterEndpoint defaultsW .mainnet (some (.perNetwork perNetworkW))
        = defaultsW .mainnet :=
  ⟨(paymaster_endpoint_resolution defaultsW .sepolia).2.1 perNetworkW
      "https://override.example" rfl (by decide),
   (paymaster_endpoint_resolution defaultsW .mainnet).2.2.2.1 perNetworkW rfl⟩
